import Mathlib

/-!
# catall: text/binary classifier, candidate filter and renderer

A shallow embedding of `main.go`.  Go strings and byte slices are lists of bytes.
The operating system is an explicit argument: opening a path yields either an error
or a byte stream, whose reads may return fewer bytes than asked for; the directory walker
is the list of locations it delivers.
Functions of the Go standard library that the program calls are either modelled after
their library source (`utf8.Valid`, the string order used by `sort.Strings`, float64
division, the verb `%d`) or taken as parameters (`filepath.Abs`, `filepath.Base`, `filepath.Rel`,
`filepath.ToSlash`, the compiled regular expression).
-/

namespace Catall

/-! ## Bytes and strings -/

/-- A Go byte slice. -/
abbrev Bytes := List UInt8

/-- A Go `string`: an immutable sequence of bytes, not necessarily valid UTF-8. -/
abbrev GoString := List UInt8

/-- The bytes of an ASCII string literal of the program text. -/
def ascii (s : String) : Bytes := s.data.map (fun c => UInt8.ofNat c.toNat)

/-! ## `unicode/utf8`: `Valid` -/

/-- The constant `utf8.RuneSelf`: bytes below it are single-byte characters. -/
def runeSelf : Nat := 0x80

/-- The marker `xx` of the table `first`: an illegal starter byte. -/
def xx : Nat := 0xF1

/-- The table `first` of `unicode/utf8`: information about the first byte of an encoding.
The low three bits are the length of the sequence, the high four bits index `acceptRanges`. -/
def first (b : UInt8) : Nat :=
  let n := b.toNat
  if n < 0x80 then 0xF0        -- as: ASCII
  else if n < 0xC2 then xx     -- 0x80-0xC1: illegal
  else if n < 0xE0 then 0x02   -- s1: size 2, accept 0
  else if n = 0xE0 then 0x13   -- s2: size 3, accept 1
  else if n < 0xED then 0x03   -- s3: size 3, accept 0
  else if n = 0xED then 0x23   -- s4: size 3, accept 2
  else if n < 0xF0 then 0x03   -- s3
  else if n = 0xF0 then 0x34   -- s5: size 4, accept 3
  else if n < 0xF4 then 0x04   -- s6: size 4, accept 0
  else if n = 0xF4 then 0x44   -- s7: size 4, accept 4
  else xx                      -- 0xF5-0xFF: illegal

/-- The table `acceptRanges` of `unicode/utf8`: the range `(lo, hi)` of valid values for the
second byte of a sequence (`locb = 0x80`, `hicb = 0xBF`). -/
def acceptRanges (i : Nat) : Nat × Nat :=
  match i with
  | 0 => (0x80, 0xBF)
  | 1 => (0xA0, 0xBF)
  | 2 => (0x80, 0x9F)
  | 3 => (0x90, 0xBF)
  | 4 => (0x80, 0x8F)
  | _ => (0, 0)

/-- The test `c < lo || hi < c` of `utf8.Valid`. -/
def outside (c : UInt8) (r : Nat × Nat) : Bool :=
  decide (c.toNat < r.1) || decide (r.2 < c.toNat)

/-- The function `utf8.Valid`: whether the slice consists entirely of valid UTF-8 encoded
runes.  The argument is the part `p[i:]` of the slice that the Go loop has not consumed yet;
`i += size` becomes the recursive call on the list after the sequence.  (The library's fast
path that skips eight ASCII bytes at a time computes the same result and is left out.) -/
def utf8Valid : Bytes → Bool
  | [] => true
  | pi :: rest =>
    if pi.toNat < runeSelf then utf8Valid rest
    else if first pi = xx then false
    else
      match rest with
      | [] => false
      | c1 :: rest1 =>
        if outside c1 (acceptRanges (first pi / 16)) then false
        else if first pi % 8 = 2 then utf8Valid rest1
        else
          match rest1 with
          | [] => false
          | c2 :: rest2 =>
            if outside c2 (0x80, 0xBF) then false
            else if first pi % 8 = 3 then utf8Valid rest2
            else
              match rest2 with
              | [] => false
              | c3 :: rest3 =>
                if outside c3 (0x80, 0xBF) then false
                else utf8Valid rest3

/-! ## float64 arithmetic -/

/-- Round a rational to the nearest integer, ties to the even one. -/
def roundHalfEven (q : ℚ) : ℤ :=
  let f := ⌊q⌋
  if q - f < 1 / 2 then f
  else if 1 / 2 < q - f then f + 1
  else if f % 2 = 0 then f else f + 1

/-- The float64 (IEEE 754 binary64, round to nearest even) nearest to a non-negative rational
below the overflow threshold: 53 significant bits, least exponent `-1022` (subnormals below). -/
def float64Round (q : ℚ) : ℚ :=
  if q = 0 then 0
  else
    let e := max (Int.log 2 q) (-1022)
    (roundHalfEven (q * (2 : ℚ) ^ (52 - e)) : ℚ) * (2 : ℚ) ^ (e - 52)

/-- The expression `float64(a) / float64(b)` for non-negative integers below `2^53` (which
convert exactly) and `b ≠ 0`: the correctly rounded quotient. -/
def float64Div (a b : Nat) : ℚ := float64Round ((a : ℚ) / (b : ℚ))

/-- The constant `0.1` as a float64. -/
def float64Tenth : ℚ := float64Round (1 / 10)

/-! ## The classifier `isTextFile` -/

/-- An `error` value: `io.EOF` or any other error. -/
inductive IOErr where
  | eof : IOErr
  | other (code : Nat) : IOErr
  deriving DecidableEq, Repr

/-- An open file, as its reads see it: the bytes arrive in `chunks`, each chunk being what is
available to one read (a regular file is a single chunk, since the kernel fills the buffer up
to the end of the file; a pipe or FIFO makes available what each write put in), and `term`
is the error that a read returns once the chunks are used up (`io.EOF` for a file that
reads to its end). -/
structure FileStream where
  chunks : List Bytes
  term : IOErr
  deriving DecidableEq, Repr

/-- The content of the file: all the bytes that its reads deliver, in order. -/
def FileStream.data (f : FileStream) : Bytes := f.chunks.flatten

/-- One read of at most `size` bytes from the chunks still to come: the bytes read and the
chunks left, or `none` when no byte is left.  The read takes from the first chunk that has
bytes, at most `size` of them, and leaves the rest of that chunk for the next read: it may
return fewer bytes than asked for and than the file still holds. -/
def readChunks (size : Nat) : List Bytes → Option (Bytes × List Bytes)
  | [] => none
  | [] :: rest => readChunks size rest
  | (b :: chunk) :: rest =>
    some ((b :: chunk).take size,
      if (b :: chunk).drop size = [] then rest else (b :: chunk).drop size :: rest)

/-- The call `f.Read(buf)` with `len(buf) = size`: the bytes read, the error and the file
advanced past the bytes read.  A read that finds bytes returns them without error; at the end
of the data it returns no bytes and the terminal error. -/
def FileStream.read (f : FileStream) (size : Nat) : Bytes × Option IOErr × FileStream :=
  match readChunks size f.chunks with
  | none => ([], some f.term, f)
  | some (buf, rest) => (buf, none, { f with chunks := rest })

/-- What `os.Open` gives for each path. -/
abbrev FileSys := GoString → Except IOErr FileStream

/-- The condition `(b < 32 && b != 9 && b != 10 && b != 13) || b == 0x7f`. -/
def isNonPrintable (b : UInt8) : Bool :=
  (decide (b.toNat < 32) && b.toNat != 9 && b.toNat != 10 && b.toNat != 13) || b.toNat == 0x7f

/-- The loop `for _, b := range buf` that counts `nonPrintable`, from a running count. -/
def countNonPrintable : Nat → Bytes → Nat
  | nonPrintable, [] => nonPrintable
  | nonPrintable, b :: rest =>
    if isNonPrintable b then countNonPrintable (nonPrintable + 1) rest
    else countNonPrintable nonPrintable rest

/-- Lines 39-54 of `isTextFile`: the verdict on the bytes read. -/
def classifyBuf (buf : Bytes) : Bool :=
  if !utf8Valid buf then false
  else
    let nonPrintable := countNonPrintable 0 buf
    if 0 < buf.length ∧ float64Tenth < float64Div nonPrintable buf.length then false
    else true

/-- The function `isTextFile`: the pair `(bool, error)` it returns. -/
def isTextFile (fsys : FileSys) (path : GoString) : Bool × Option IOErr :=
  match fsys path with
  | .error err => (false, some err)
  | .ok f =>
    match f.read 8000 with
    | (buf, err, _) =>
      if err ≠ none ∧ err ≠ some IOErr.eof then (false, err)
      else (classifyBuf buf, none)


/-- Go's `<` on strings: the bytes are compared in order, the first difference decides, and a
string is less than every proper extension of it. -/
def stringLess : GoString → GoString → Bool
  | [], [] => false
  | [], _ :: _ => true
  | _ :: _, [] => false
  | a :: as, b :: bs =>
    if a.toNat < b.toNat then true
    else if b.toNat < a.toNat then false
    else stringLess as bs

/-- The call `sort.Strings(x)`: `x` sorted in increasing order under `<`.  The order is total
and antisymmetric, so the sorted arrangement of `x` is unique (`sortStrings_unique`) and does
not depend on the algorithm; an insertion sort is used here. -/
def sortStrings (x : List GoString) : List GoString :=
  List.insertionSort (fun a b => stringLess b a = false) x

/-! ## The operating system and the libraries around `main` -/

/-- The functions of `path/filepath` that `main` calls, for the platform and the working
directory of the run. -/
structure PathLib where
  /-- The function `filepath.Abs`; `none` when it returns an error. -/
  abs : GoString → Option GoString
  /-- The function `filepath.Base`. -/
  base : GoString → GoString
  /-- The call `filepath.Rel(basepath, targpath)`; `none` when it returns an error (the string
  it returns is then empty). -/
  rel : GoString → GoString → Option GoString
  /-- The function `filepath.ToSlash`. -/
  toSlash : GoString → GoString

/-- A compiled `*regexp.Regexp`, as its method `MatchString`; `none` is the nil pointer that
`filterRe` holds when no `--filter` is given. -/
abbrev Regexp := Option (GoString → Bool)

/-- The method `MatchString` of the expression compiled from `\.go$`: without the multi-line
flag `$` matches only at the end of the text, so the expression matches the texts that end
in `.go`. -/
def matchDotGoAtEnd (s : GoString) : Bool :=
  (ascii ".go").reverse.isPrefixOf s.reverse

/-! ## `main`: the output file, the filter loop and the sort -/

/-- Lines 91-98: `outFile` is the absolute form of the link target of `/proc/self/fd/1` when
`os.Stdout.Stat()` succeeds, the mode it reports has no `ModeCharDevice` bit and the link can
be read; it stays empty otherwise (also when `filepath.Abs` fails: the string it returns is
then empty).  `stdoutStat` is `none` when `Stat` fails and otherwise tells whether the
`ModeCharDevice` bit is set; `readlink` is `none` when `os.Readlink` fails. -/
def resolveOutFile (lib : PathLib) (stdoutStat : Option Bool) (readlink : Option GoString) :
    GoString :=
  match stdoutStat with
  | some false =>
    match readlink with
    | some link =>
      match lib.abs link with
      | some p => p
      | none => []
    | none => []
  | _ => []

/-- Lines 115-136: the loop over the walker's queue, from the `files` collected so far and the
locations still to come. -/
def filterLoop (lib : PathLib) (outFile : GoString) (filterRe : Regexp) :
    List GoString → List GoString → List GoString
  | files, [] => files
  | files, location :: queue =>
    match lib.abs location with
    | none => filterLoop lib outFile filterRe files queue
    | some absPath =>
      if outFile ≠ [] ∧ absPath = outFile then filterLoop lib outFile filterRe files queue
      else if lib.base absPath = ascii ".gitignore" ∨ lib.base absPath = ascii ".ignore" then
        filterLoop lib outFile filterRe files queue
      else
        match filterRe with
        | some re =>
          if !re absPath then filterLoop lib outFile filterRe files queue
          else filterLoop lib outFile filterRe (files ++ [absPath]) queue
        | none => filterLoop lib outFile filterRe (files ++ [absPath]) queue

/-- Lines 113-139: the candidate filter, the loop followed by `sort.Strings(files)`. -/
def candidateFiles (lib : PathLib) (outFile : GoString) (filterRe : Regexp)
    (queue : List GoString) : List GoString :=
  sortStrings (filterLoop lib outFile filterRe [] queue)

/-! ## `main`: list mode and the index -/

/-- The call `fmt.Println(s)` with one string: the string and a newline. -/
def println (s : GoString) : Bytes := s ++ ascii "\n"

/-- The decimal loop of `fmt` for an unsigned value `u`, writing digits in front of `buf`:
`for u >= 10 { next := u / 10; buf[i] = '0' + u - next*10; u = next }` and then the digit of
the last `u`.  Each round divides `u` by ten; `fuel` bounds the rounds. -/
def fmtDigits : Nat → Nat → Bytes → Bytes
  | 0, u, buf => UInt8.ofNat (48 + u) :: buf
  | fuel + 1, u, buf =>
    if 10 ≤ u then fmtDigits fuel (u / 10) (UInt8.ofNat (48 + (u - u / 10 * 10)) :: buf)
    else UInt8.ofNat (48 + u) :: buf

/-- The verb `%d` for a non-negative integer: its decimal digits. -/
def formatInt (n : Nat) : Bytes := fmtDigits n n []

/-- The number that a string of decimal digits denotes, most significant digit first. -/
def decimalValue (s : Bytes) : Nat := s.foldl (fun acc d => 10 * acc + (d.toNat - 48)) 0

/-- The expression `"./" + filepath.ToSlash(rel)` after `rel, _ := filepath.Rel(pwd, absPath)`,
where the error is dropped and `rel` is empty when there is one. -/
def relSlash (lib : PathLib) (pwd absPath : GoString) : GoString :=
  ascii "./" ++ lib.toSlash (match lib.rel pwd absPath with
    | some rel => rel
    | none => [])

/-- Lines 142-145: the loop of list mode, the bytes it writes. -/
def listLoop (lib : PathLib) (pwd : GoString) : List GoString → Bytes
  | [] => []
  | absPath :: files => println (relSlash lib pwd absPath) ++ listLoop lib pwd files

/-- Lines 150-153: the loop that prints the index, from the index `i` of the next file. -/
def indexLoop (lib : PathLib) (pwd : GoString) : Nat → List GoString → Bytes
  | _, [] => []
  | i, f :: files =>
    (formatInt (i + 1) ++ ascii ": " ++ relSlash lib pwd f ++ ascii "\n")
      ++ indexLoop lib pwd (i + 1) files

/-! ## `main`: the cat loop -/

/-- The marker printed for a file that is not shown. -/
def marker : Bytes := ascii "BINARY OR BAD FORMAT"

/-- Lines 157-161: `relPath`, which falls back to the absolute path when `filepath.Rel`
fails. -/
def catRelPath (lib : PathLib) (pwd absPath : GoString) : GoString :=
  ascii "./" ++ lib.toSlash (match lib.rel pwd absPath with
    | some relPath => relPath
    | none => absPath)

/-- Line 162: the bytes of `fmt.Printf("\n\n==== %s ====\n", relPath)`. -/
def banner (lib : PathLib) (pwd absPath : GoString) : Bytes :=
  ascii "\n\n==== " ++ catRelPath lib pwd absPath ++ ascii " ====\n"

/-- Lines 181-193: the copy loop, the bytes it writes.  The `bufio.Reader` has the default
buffer of 4096 bytes, so each `reader.Read(buf)` with the 4096-byte `buf` is one read of the
file.  Each round without error consumes at least one byte; `fuel` bounds the rounds. -/
def copyLoop : Nat → FileStream → Bytes
  | 0, _ => []
  | fuel + 1, f =>
    match f.read 4096 with
    | (chunk, err, f1) =>
      if err = some IOErr.eof then chunk
      else if err ≠ none then chunk ++ (ascii "\n" ++ println marker)
      else chunk ++ copyLoop fuel f1

/-- Lines 157-193: one round of the cat loop, the bytes written for `absPath`.  `fsys` is what
the `os.Open` inside `isTextFile` gets and `fsys2` what the second `os.Open` gets. -/
def catSection (lib : PathLib) (pwd : GoString) (fsys fsys2 : FileSys) (absPath : GoString) :
    Bytes :=
  banner lib pwd absPath ++
    (match isTextFile fsys absPath with
    | (isText, err) =>
      if err ≠ none ∨ !isText then println marker
      else
        match fsys2 absPath with
        | .error _ => println marker
        | .ok f => copyLoop (f.data.length + 1) f)

/-- Lines 156-194: the cat loop. -/
def catLoop (lib : PathLib) (pwd : GoString) (fsys fsys2 : FileSys) : List GoString → Bytes
  | [] => []
  | absPath :: files =>
    catSection lib pwd fsys fsys2 absPath ++ catLoop lib pwd fsys fsys2 files

/-- Lines 141-194: what `main` writes to standard output for the sorted `files`. -/
def render (lib : PathLib) (pwd : GoString) (fsys fsys2 : FileSys) (listOnly : Bool)
    (files : List GoString) : Bytes :=
  if listOnly then listLoop lib pwd files
  else
    println (ascii "Files not ignored in this directory:")
      ++ indexLoop lib pwd 0 files
      ++ catLoop lib pwd fsys fsys2 files

/-- The function `main` after the flags are parsed and the expression is compiled: the bytes
written to standard output, given the walker's queue and the state of the system. -/
def run (lib : PathLib) (pwd : GoString) (fsys fsys2 : FileSys) (listOnly : Bool)
    (filterRe : Regexp) (stdoutStat : Option Bool) (readlink : Option GoString)
    (queue : List GoString) : Bytes :=
  render lib pwd fsys fsys2 listOnly
    (candidateFiles lib (resolveOutFile lib stdoutStat readlink) filterRe queue)

/-! ## A concrete system for examples -/

/-- The function `filepath.Base` on Unix: the last element of the path, after trailing
slashes are dropped; `.` for the empty path and `/` for a path of slashes only. -/
def unixBase (path : GoString) : GoString :=
  if path = [] then ascii "."
  else
    let stripped := (path.reverse.dropWhile (fun b => b == 0x2F)).reverse
    let last := (stripped.reverse.takeWhile (fun b => b != 0x2F)).reverse
    if last = [] then ascii "/" else last

/-- A path library for examples: every location is already an absolute, clean path; paths
are made relative to the working directory by dropping `pwd` and the slash after it. -/
def exampleLib : PathLib where
  abs := fun p => some p
  base := unixBase
  rel := fun pwd p => if (pwd ++ ascii "/").isPrefixOf p then some (p.drop (pwd.length + 1)) else none
  toSlash := fun p => p

/-! ## The specification's reading of the filter -/

/-- The condition of the specification for an absolute path to survive the filter: it is not
the (non-empty) output target, its base name is neither `.gitignore` nor `.ignore`, and it
matches the include expression when one is configured. -/
def specSurvives (lib : PathLib) (outFile : GoString) (filterRe : Regexp) (p : GoString) :
    Bool :=
  !(decide (outFile ≠ []) && decide (p = outFile))
    && !(decide (lib.base p = ascii ".gitignore") || decide (lib.base p = ascii ".ignore"))
    && (match filterRe with
        | some re => re p
        | none => true)

/-- A directory with `a.txt` holding `hello` and `b.bin` holding the bytes `00 01 02 ff`. -/
def exampleFS : FileSys := fun p =>
  if p = ascii "/w/a.txt" then .ok ⟨[ascii "hello"], IOErr.eof⟩
  else if p = ascii "/w/b.bin" then .ok ⟨[[0x00, 0x01, 0x02, 0xFF]], IOErr.eof⟩
  else .error (IOErr.other 2)


/-! ## Facts about float64 rounding -/

theorem roundHalfEven_sub_le (q : ℚ) : |(roundHalfEven q : ℚ) - q| ≤ 1 / 2 := by
  have h0 : (0 : ℚ) ≤ q - ⌊q⌋ := sub_nonneg.mpr (Int.floor_le q)
  have h1 : q - ⌊q⌋ < 1 := by
    have := Int.lt_floor_add_one q
    linarith
  unfold roundHalfEven
  simp only
  split_ifs with ha hb hc
  · rw [abs_le]; constructor <;> linarith
  · rw [abs_le]; push_cast; constructor <;> linarith
  · have hd : q - ⌊q⌋ = 1 / 2 := le_antisymm (not_lt.mp hb) (not_lt.mp ha)
    rw [abs_le]; constructor <;> linarith
  · have hd : q - ⌊q⌋ = 1 / 2 := le_antisymm (not_lt.mp hb) (not_lt.mp ha)
    rw [abs_le]; push_cast; constructor <;> linarith

theorem float64Round_sub_le (q : ℚ) (h0 : 0 < q) (h1 : q ≤ 1) :
    |float64Round q - q| ≤ 1 / 2 ^ 53 := by
  unfold float64Round
  rw [if_neg (ne_of_gt h0)]
  simp only
  set e := max (Int.log 2 q) (-1022) with he
  have hlog : Int.log 2 q ≤ 0 := by
    have h2 : q < ((2 : ℕ) : ℚ) ^ (1 : ℤ) := by norm_num; linarith
    have := (Int.lt_zpow_iff_log_lt (by norm_num : 1 < 2) h0).mp h2
    omega
  have hle : e ≤ 0 := max_le hlog (by norm_num)
  have hpos : (0 : ℚ) < (2 : ℚ) ^ (e - 52) := zpow_pos (by norm_num) _
  have hmul : (2 : ℚ) ^ (52 - e) * (2 : ℚ) ^ (e - 52) = 1 := by
    rw [← zpow_add₀ (by norm_num : (2 : ℚ) ≠ 0)]
    have : 52 - e + (e - 52) = 0 := by ring
    rw [this, zpow_zero]
  have hsplit : (roundHalfEven (q * (2 : ℚ) ^ (52 - e)) : ℚ) * (2 : ℚ) ^ (e - 52) - q
      = ((roundHalfEven (q * (2 : ℚ) ^ (52 - e)) : ℚ) - q * (2 : ℚ) ^ (52 - e))
        * (2 : ℚ) ^ (e - 52) := by
    rw [sub_mul, mul_assoc, hmul, mul_one]
  rw [hsplit, abs_mul, abs_of_pos hpos]
  have hb := roundHalfEven_sub_le (q * (2 : ℚ) ^ (52 - e))
  have hpow : (2 : ℚ) ^ (e - 52) ≤ (2 : ℚ) ^ (-52 : ℤ) :=
    zpow_le_zpow_right₀ (by norm_num) (by omega)
  calc |(roundHalfEven (q * (2 : ℚ) ^ (52 - e)) : ℚ) - q * (2 : ℚ) ^ (52 - e)|
        * (2 : ℚ) ^ (e - 52)
      ≤ 1 / 2 * (2 : ℚ) ^ (-52 : ℤ) :=
        mul_le_mul hb hpow (le_of_lt hpos) (by norm_num)
    _ = 1 / 2 ^ 53 := by norm_num

theorem float64Round_zero : float64Round 0 = 0 := by
  simp [float64Round]

/-- For a count `c` out of `n ≤ 8000` bytes the float64 test `c / n > 0.1` of the program
decides exactly `10 * c > n`. -/
theorem float64_gt_tenth_iff (c n : Nat) (hn : 0 < n) (hn8 : n ≤ 8000) (hc : c ≤ n) :
    float64Tenth < float64Div c n ↔ n < 10 * c := by
  have ht := float64Round_sub_le (1 / 10) (by norm_num) (by norm_num)
  rw [abs_le] at ht
  have hnq : (0 : ℚ) < (n : ℚ) := by exact_mod_cast hn
  have hn8q : (n : ℚ) ≤ 8000 := by exact_mod_cast hn8
  unfold float64Tenth float64Div
  rcases Nat.lt_trichotomy n (10 * c) with hlt | heq | hgt
  · -- more than 10%
    have hq1 : (c : ℚ) / n ≤ 1 := by
      rw [div_le_one hnq]; exact_mod_cast hc
    have hcq : ((n : ℚ) + 1) ≤ 10 * c := by exact_mod_cast hlt
    have hq0 : (1 : ℚ) / 10 + 1 / 80000 ≤ (c : ℚ) / n := by
      rw [le_div_iff₀ hnq]
      nlinarith
    have hq := float64Round_sub_le ((c : ℚ) / n) (by linarith) hq1
    rw [abs_le] at hq
    constructor
    · intro _; exact hlt
    · intro _
      have : (1 : ℚ) / 2 ^ 53 < 1 / 200000 := by norm_num
      linarith [hq.1, ht.2]
  · -- exactly 10%
    have hq : (c : ℚ) / n = 1 / 10 := by
      have hc0 : (n : ℚ) = 10 * c := by exact_mod_cast heq
      rw [div_eq_iff (ne_of_gt hnq), hc0]; ring
    rw [hq]
    constructor
    · intro h; exact absurd h (lt_irrefl _)
    · intro h; omega
  · -- less than 10%
    constructor
    · intro h
      exfalso
      rcases Nat.eq_zero_or_pos c with hc0 | hcpos
      · subst hc0
        simp only [Nat.cast_zero, zero_div, float64Round_zero] at h
        have : (1 : ℚ) / 2 ^ 53 < 1 / 200000 := by norm_num
        linarith [ht.1]
      · have hcq0 : (0 : ℚ) < (c : ℚ) := by exact_mod_cast hcpos
        have hq1 : (c : ℚ) / n ≤ 1 := by
          rw [div_le_one hnq]; exact_mod_cast hc
        have hcq : 10 * (c : ℚ) + 1 ≤ n := by exact_mod_cast hgt
        have hq0 : (c : ℚ) / n ≤ 1 / 10 - 1 / 80000 := by
          rw [div_le_iff₀ hnq]
          nlinarith
        have hq := float64Round_sub_le ((c : ℚ) / n) (div_pos hcq0 hnq) hq1
        rw [abs_le] at hq
        have : (1 : ℚ) / 2 ^ 53 < 1 / 200000 := by norm_num
        linarith [hq.2, ht.1]
    · intro h; omega

/-! ## Facts about `utf8.Valid` -/

theorem countNonPrintable_eq (acc : Nat) (buf : Bytes) :
    countNonPrintable acc buf = acc + buf.countP isNonPrintable := by
  induction buf generalizing acc with
  | nil => simp [countNonPrintable]
  | cons b rest ih =>
    by_cases hb : isNonPrintable b = true
    · simp [countNonPrintable, hb, ih, List.countP_cons]; omega
    · simp [countNonPrintable, hb, ih, List.countP_cons]

theorem isNonPrintable_spelled_out :
    (fun b : UInt8 => decide ((b.toNat < 32 ∧ b.toNat ≠ 9 ∧ b.toNat ≠ 10 ∧ b.toNat ≠ 13)
      ∨ b.toNat = 0x7F)) = isNonPrintable := by
  funext b
  rw [Bool.eq_iff_iff]
  simp [isNonPrintable, and_assoc]

/-- On at most 8000 bytes the verdict is: valid UTF-8 and at most one non-printable byte
in ten. -/
theorem classifyBuf_eq (buf : Bytes) (h : buf.length ≤ 8000) :
    classifyBuf buf
      = (utf8Valid buf && decide (10 * buf.countP isNonPrintable ≤ buf.length)) := by
  unfold classifyBuf
  by_cases hv : utf8Valid buf = true
  · simp only [hv, Bool.not_true, Bool.false_eq_true, if_false, Bool.true_and,
      countNonPrintable_eq, Nat.zero_add]
    by_cases hlen : 0 < buf.length
    · have hc : buf.countP isNonPrintable ≤ buf.length := List.countP_le_length _
      have key := float64_gt_tenth_iff (buf.countP isNonPrintable) buf.length hlen h hc
      by_cases hgt : buf.length < 10 * buf.countP isNonPrintable
      · rw [if_pos ⟨hlen, key.mpr hgt⟩]
        simp; omega
      · rw [if_neg (fun hh => hgt (key.mp hh.2))]
        simp; omega
    · have hnil : buf = [] := List.eq_nil_of_length_eq_zero (by omega)
      subst hnil
      simp
  · simp [hv]

/-! ## Facts about reads -/

theorem readChunks_none_iff (size : Nat) (chunks : List Bytes) :
    readChunks size chunks = none ↔ chunks.flatten = [] := by
  induction chunks with
  | nil => simp [readChunks]
  | cons c rest ih =>
    cases c with
    | nil => simpa [readChunks] using ih
    | cons b chunk => simp [readChunks]

/-- A read of a positive size that finds bytes returns at least one and at most `size` of
them, and they are the next bytes of the content. -/
theorem readChunks_some (size : Nat) (hs : 0 < size) (chunks : List Bytes) (buf : Bytes)
    (rest : List Bytes) (h : readChunks size chunks = some (buf, rest)) :
    buf ≠ [] ∧ buf.length ≤ size ∧ buf ++ rest.flatten = chunks.flatten := by
  induction chunks with
  | nil => simp [readChunks] at h
  | cons c chunks ih =>
    cases c with
    | nil =>
      simp only [readChunks] at h
      simpa using ih h
    | cons b chunk =>
      simp only [readChunks, Option.some.injEq, Prod.mk.injEq] at h
      obtain ⟨hbuf, hrest⟩ := h
      subst hbuf
      refine ⟨?_, ?_, ?_⟩
      · cases size with
        | zero => omega
        | succ n => simp
      · simp only [List.length_take]; omega
      · by_cases hd : List.drop size (b :: chunk) = []
        · rw [if_pos hd] at hrest
          subst hrest
          have := List.take_append_drop size (b :: chunk)
          rw [hd, List.append_nil] at this
          rw [this]; simp
        · rw [if_neg hd] at hrest
          subst hrest
          simp only [List.flatten_cons, ← List.append_assoc, List.take_append_drop]

theorem readChunks_length_le (size : Nat) (chunks : List Bytes) (buf : Bytes)
    (rest : List Bytes) (h : readChunks size chunks = some (buf, rest)) :
    buf.length ≤ size := by
  induction chunks with
  | nil => simp [readChunks] at h
  | cons c chunks ih =>
    cases c with
    | nil =>
      simp only [readChunks] at h
      exact ih h
    | cons b chunk =>
      simp only [readChunks, Option.some.injEq, Prod.mk.injEq] at h
      rw [← h.1, List.length_take]
      omega

theorem read_fst_length_le (f : FileStream) (size : Nat) : (f.read size).1.length ≤ size := by
  unfold FileStream.read
  cases hrc : readChunks size f.chunks with
  | none => simp
  | some br =>
    obtain ⟨buf, rest⟩ := br
    exact readChunks_length_le size f.chunks buf rest hrc

/-- The error of a read: none when the file still has bytes, the terminal error otherwise. -/
theorem read_err (f : FileStream) (size : Nat) :
    (f.read size).2.1 = if f.data = [] then some f.term else none := by
  unfold FileStream.read FileStream.data
  cases hrc : readChunks size f.chunks with
  | none => simp [(readChunks_none_iff size f.chunks).mp hrc]
  | some br =>
    have hne : f.chunks.flatten ≠ [] := by
      intro h
      rw [(readChunks_none_iff size f.chunks).mpr h] at hrc
      exact absurd hrc (by simp)
    simp [hne]

/-- The bytes of a read are the first bytes of the content. -/
theorem read_fst_append (f : FileStream) (size : Nat) (hs : 0 < size) :
    ∃ t, f.data = (f.read size).1 ++ t := by
  unfold FileStream.read FileStream.data
  cases hrc : readChunks size f.chunks with
  | none => exact ⟨f.chunks.flatten, rfl⟩
  | some br =>
    obtain ⟨buf, rest⟩ := br
    exact ⟨rest.flatten, (readChunks_some size hs f.chunks buf rest hrc).2.2.symm⟩

/-- A read never reaches beyond the first `size` bytes of the content. -/
theorem read_fst_append_take (f : FileStream) (size : Nat) (hs : 0 < size) :
    ∃ t, f.data.take size = (f.read size).1 ++ t := by
  obtain ⟨t, ht⟩ := read_fst_append f size hs
  have hlen := read_fst_length_le f size
  refine ⟨t.take (size - (f.read size).1.length), ?_⟩
  conv_lhs => rw [ht]
  rw [List.take_append_eq_append_take, List.take_of_length_le hlen]

theorem isTextFile_unfold (fsys : FileSys) (path : GoString) (f : FileStream)
    (hopen : fsys path = .ok f) :
    isTextFile fsys path
      = if (f.read 8000).2.1 ≠ none ∧ (f.read 8000).2.1 ≠ some IOErr.eof
        then (false, (f.read 8000).2.1)
        else (classifyBuf (f.read 8000).1, none) := by
  unfold isTextFile
  rw [hopen]

theorem isTextFile_of_open (fsys : FileSys) (path : GoString) (f : FileStream)
    (hopen : fsys path = .ok f) (hread : f.data ≠ [] ∨ f.term = IOErr.eof) :
    isTextFile fsys path = (classifyBuf (f.read 8000).1, none) := by
  rw [isTextFile_unfold fsys path f hopen, read_err]
  rcases hread with hne | heof
  · simp [hne]
  · by_cases hd : f.data = []
    · simp [hd, heof]
    · simp [hd]

theorem isTextFile_eq (fsys : FileSys) (path : GoString) (f : FileStream)
    (hopen : fsys path = .ok f) (hread : f.data ≠ [] ∨ f.term = IOErr.eof) :
    isTextFile fsys path
      = (utf8Valid (f.read 8000).1
          && decide (10 * (f.read 8000).1.countP isNonPrintable ≤ (f.read 8000).1.length),
         none) := by
  rw [isTextFile_of_open fsys path f hopen hread,
    classifyBuf_eq _ (read_fst_length_le f 8000)]

/-! ## The claims about the classifier -/

/-- C1: whenever the file opens and its first read succeeds, with `p` the bytes read (the first
8000 at most) and `c` the number of bytes `b` of `p` with `(b < 32` and `b` not 9, 10 or 13`)`
or `b = 0x7F`, `isTextFile` returns Binary `(false, nil)` exactly when `p` is not valid UTF-8
or `10 * c > len(p)`, and Text `(true, nil)` in every other case; in particular the empty
sample is Text, a sample with exactly 10% such bytes is Text, and a valid sample with fewer
than 10% such bytes is Text. -/
theorem isTextFile_contract (fsys : FileSys) (path : GoString) (f : FileStream)
    (hopen : fsys path = .ok f) (hread : f.data ≠ [] ∨ f.term = IOErr.eof) :
    (isTextFile fsys path = (false, none) ↔
      (utf8Valid (f.read 8000).1 = false ∨
        (f.read 8000).1.length < 10 * (f.read 8000).1.countP
          (fun b => decide ((b.toNat < 32 ∧ b.toNat ≠ 9 ∧ b.toNat ≠ 10 ∧ b.toNat ≠ 13)
            ∨ b.toNat = 0x7F)))) ∧
    (¬ (utf8Valid (f.read 8000).1 = false ∨
        (f.read 8000).1.length < 10 * (f.read 8000).1.countP
          (fun b => decide ((b.toNat < 32 ∧ b.toNat ≠ 9 ∧ b.toNat ≠ 10 ∧ b.toNat ≠ 13)
            ∨ b.toNat = 0x7F))) → isTextFile fsys path = (true, none)) ∧
    ((f.read 8000).1 = [] → isTextFile fsys path = (true, none)) ∧
    (utf8Valid (f.read 8000).1 = true →
      10 * (f.read 8000).1.countP
          (fun b => decide ((b.toNat < 32 ∧ b.toNat ≠ 9 ∧ b.toNat ≠ 10 ∧ b.toNat ≠ 13)
            ∨ b.toNat = 0x7F)) ≤ (f.read 8000).1.length →
      isTextFile fsys path = (true, none)) ∧
    (f.read 8000).1.length ≤ 8000 ∧
    (∃ t, f.data.take 8000 = (f.read 8000).1 ++ t) := by
  rw [isNonPrintable_spelled_out, isTextFile_eq fsys path f hopen hread]
  refine ⟨?_, ?_, ?_, ?_, read_fst_length_le f 8000,
    read_fst_append_take f 8000 (by decide)⟩
  · generalize (f.read 8000).1 = p
    cases hv : utf8Valid p <;> simp
  · generalize (f.read 8000).1 = p
    cases hv : utf8Valid p <;> simp
  · intro hp; rw [hp]; simp [utf8Valid]
  · intro hv hc; simp [hv, hc]

theorem isTextFile_contract_witness :
    ((fun _ => Except.ok ⟨[ascii "hello"], IOErr.eof⟩ : FileSys) (ascii "/a.txt")
        = .ok ⟨[ascii "hello"], IOErr.eof⟩) ∧
    isTextFile (fun _ => Except.ok ⟨[ascii "hello"], IOErr.eof⟩) (ascii "/a.txt")
      = (true, none) :=
  ⟨rfl, (isTextFile_contract (fun _ => Except.ok ⟨[ascii "hello"], IOErr.eof⟩) (ascii "/a.txt")
    ⟨[ascii "hello"], IOErr.eof⟩ rfl (Or.inr rfl)).2.2.2.1 (by decide) (by decide)⟩

theorem utf8Valid_examples :
    utf8Valid (ascii "hello") = true ∧
    utf8Valid [0x61, 0xC3, 0xA9] = true ∧
    utf8Valid [0xE4, 0xB8, 0xAD] = true ∧
    utf8Valid [0xF0, 0x9F, 0x98, 0x80] = true ∧
    utf8Valid [0x00] = true ∧
    utf8Valid [0xE4, 0xB8] = false ∧
    utf8Valid [0xC0, 0x80] = false ∧
    utf8Valid [0xED, 0xA0, 0x80] = false ∧
    utf8Valid [0xF4, 0x90, 0x80, 0x80] = false ∧
    utf8Valid [0x00, 0x01, 0x02, 0xFF] = false := by decide

theorem stringLess_examples :
    stringLess (ascii "/w/a.txt") (ascii "/w/b.bin") = true ∧
    stringLess (ascii "/w/a") (ascii "/w/a.txt") = true ∧
    stringLess (ascii "/w/Z") (ascii "/w/a") = true ∧
    stringLess (ascii "/w/a") (ascii "/w/a") = false ∧
    sortStrings [ascii "/w/b.bin", ascii "/w/a.txt"] = [ascii "/w/a.txt", ascii "/w/b.bin"] := by
  decide

theorem library_examples :
    unixBase (ascii "/w/.gitignore") = ascii ".gitignore" ∧
    unixBase (ascii "/w/sub/") = ascii "sub" ∧
    matchDotGoAtEnd (ascii "/w/main.go") = true ∧
    matchDotGoAtEnd (ascii "/w/main.go.txt") = false ∧
    formatInt 12 = ascii "12" := by decide

/-- The list-mode scenario of the specification: `a.txt`, `b.bin` and `.gitignore` are
discovered (the walker has left `ignored.txt` out); the output is `./a.txt` and `./b.bin`. -/
theorem run_list_mode_example :
    run exampleLib (ascii "/w") exampleFS exampleFS true none (some true) none
      [ascii "/w/b.bin", ascii "/w/.gitignore", ascii "/w/a.txt"]
    = ascii "./a.txt\n./b.bin\n" := by decide

/-! ## The string order -/

theorem stringLess_irrefl (a : GoString) : stringLess a a = false := by
  induction a with
  | nil => rfl
  | cons x xs ih => simp [stringLess, ih]

/-- The order `<` of Go strings is the lexicographic order of the byte values. -/
theorem stringLess_iff_lex (a b : GoString) :
    stringLess a b = true ↔ List.Lex (fun x y : UInt8 => x.toNat < y.toNat) a b := by
  induction a generalizing b with
  | nil =>
    cases b with
    | nil => simp [stringLess]
    | cons y ys => simp [stringLess, List.Lex.nil]
  | cons x xs ih =>
    cases b with
    | nil => simp [stringLess]
    | cons y ys =>
      simp only [stringLess]
      by_cases h1 : x.toNat < y.toNat
      · simp only [h1, if_true, true_iff]
        exact List.Lex.rel h1
      · by_cases h2 : y.toNat < x.toNat
        · simp only [h1, h2, if_false, if_true, Bool.false_eq_true, false_iff]
          intro h
          cases h with
          | cons h => omega
          | rel h => omega
        · have heq : x = y := UInt8.ext_iff.mpr (by omega)
          subst heq
          simp only [h1, if_false]
          rw [ih ys]
          constructor
          · exact List.Lex.cons
          · intro h
            cases h with
            | cons h => exact h
            | rel h => omega

theorem stringLess_antisymm (a b : GoString) (h1 : stringLess a b = false)
    (h2 : stringLess b a = false) : a = b := by
  induction a generalizing b with
  | nil =>
    cases b with
    | nil => rfl
    | cons y ys => simp [stringLess] at h1
  | cons x xs ih =>
    cases b with
    | nil => simp [stringLess] at h2
    | cons y ys =>
      simp only [stringLess] at h1 h2
      by_cases hxy : x.toNat < y.toNat
      · simp [hxy] at h1
      · by_cases hyx : y.toNat < x.toNat
        · simp [hyx] at h2
        · have heq : x = y := UInt8.ext_iff.mpr (by omega)
          subst heq
          simp only [hxy, if_false] at h1 h2
          rw [ih ys h1 h2]

theorem stringLess_asymm (a b : GoString) (h : stringLess a b = true) :
    stringLess b a = false := by
  induction a generalizing b with
  | nil =>
    cases b with
    | nil => rfl
    | cons y ys => rfl
  | cons x xs ih =>
    cases b with
    | nil => simp [stringLess] at h
    | cons y ys =>
      simp only [stringLess] at h ⊢
      by_cases hxy : x.toNat < y.toNat
      · have : ¬ y.toNat < x.toNat := by omega
        simp [hxy, this]
      · by_cases hyx : y.toNat < x.toNat
        · simp [hxy, hyx] at h
        · simp only [hxy, hyx, if_false] at h ⊢
          exact ih ys h

theorem stringLess_trans (a b c : GoString) (h1 : stringLess a b = true)
    (h2 : stringLess b c = true) : stringLess a c = true := by
  induction a generalizing b c with
  | nil =>
    cases c with
    | nil =>
      cases b with
      | nil => simp [stringLess] at h1
      | cons y ys => simp [stringLess] at h2
    | cons z zs => rfl
  | cons x xs ih =>
    cases b with
    | nil => simp [stringLess] at h1
    | cons y ys =>
      cases c with
      | nil => simp [stringLess] at h2
      | cons z zs =>
        simp only [stringLess] at h1 h2 ⊢
        by_cases hxy : x.toNat < y.toNat
        · by_cases hyz : y.toNat < z.toNat
          · have : x.toNat < z.toNat := by omega
            simp [this]
          · by_cases hzy : z.toNat < y.toNat
            · simp [hyz, hzy] at h2
            · have : x.toNat < z.toNat := by omega
              simp [this]
        · by_cases hyx : y.toNat < x.toNat
          · simp [hxy, hyx] at h1
          · simp only [hxy, hyx, if_false] at h1
            by_cases hyz : y.toNat < z.toNat
            · have : x.toNat < z.toNat := by omega
              simp [this]
            · by_cases hzy : z.toNat < y.toNat
              · simp [hyz, hzy] at h2
              · simp only [hyz, hzy, if_false] at h2
                have e1 : ¬ x.toNat < z.toNat := by omega
                have e2 : ¬ z.toNat < x.toNat := by omega
                simp only [e1, e2, if_false]
                exact ih ys zs h1 h2

/-- The relation "not greater" of two strings: equal, or less. -/
theorem stringLess_false_iff (a b : GoString) :
    stringLess b a = false ↔ a = b ∨ stringLess a b = true := by
  constructor
  · intro h
    by_cases hab : stringLess a b = true
    · exact Or.inr hab
    · exact Or.inl (stringLess_antisymm a b (by simpa using hab) h)
  · rintro (h | h)
    · subst h; exact stringLess_irrefl a
    · exact stringLess_asymm a b h

theorem stringLE_total (a b : GoString) :
    stringLess b a = false ∨ stringLess a b = false := by
  by_cases h : stringLess b a = true
  · exact Or.inr (stringLess_asymm b a h)
  · exact Or.inl (by simpa using h)

theorem stringLE_trans (a b c : GoString) (h1 : stringLess b a = false)
    (h2 : stringLess c b = false) : stringLess c a = false := by
  rw [stringLess_false_iff] at h1 h2 ⊢
  rcases h1 with h1 | h1
  · subst h1; exact h2
  · rcases h2 with h2 | h2
    · subst h2; exact Or.inr h1
    · exact Or.inr (stringLess_trans a b c h1 h2)

theorem sortStrings_sorted (x : List GoString) :
    List.Sorted (fun a b => stringLess b a = false) (sortStrings x) :=
  @List.sorted_insertionSort GoString (fun a b => stringLess b a = false) _
    ⟨stringLE_total⟩ ⟨stringLE_trans⟩ x

theorem sortStrings_perm (x : List GoString) : (sortStrings x).Perm x :=
  List.perm_insertionSort _ x

theorem eq_of_perm_of_sorted_strings (x y : List GoString) (hp : x.Perm y)
    (hx : List.Sorted (fun a b => stringLess b a = false) x)
    (hy : List.Sorted (fun a b => stringLess b a = false) y) : x = y :=
  @List.eq_of_perm_of_sorted GoString (fun a b => stringLess b a = false)
    ⟨fun a b h1 h2 => stringLess_antisymm a b h2 h1⟩ x y hp hx hy

/-- The sorted arrangement is unique: any sorted list with the elements of `x` is what
`sort.Strings` leaves in `x`, whatever algorithm produced it. -/
theorem sortStrings_unique (x y : List GoString) (hp : y.Perm x)
    (hs : List.Sorted (fun a b => stringLess b a = false) y) : y = sortStrings x :=
  eq_of_perm_of_sorted_strings y (sortStrings x) (hp.trans (sortStrings_perm x).symm) hs
    (sortStrings_sorted x)

/-! ## The candidate filter -/

theorem count_filter_ite (l : List GoString) (f : GoString → Bool) (p : GoString) :
    (l.filter f).count p = if f p = true then l.count p else 0 := by
  unfold List.count
  rw [List.countP_filter]
  split
  · next h =>
    congr 1; funext q
    by_cases hq : q = p
    · subst hq; simp [h]
    · have : (q == p) = false := by simpa using hq
      simp [this]
  · next h =>
    rw [List.countP_eq_zero]; intro q _
    by_cases hq : q = p
    · subst hq; simp [h]
    · have : (q == p) = false := by simpa using hq
      simp [this]

theorem perm_count_eq (l1 l2 : List GoString) (h : l1.Perm l2) (p : GoString) :
    l1.count p = l2.count p := by
  unfold List.count
  exact h.countP_eq _

theorem filterLoop_eq (lib : PathLib) (outFile : GoString) (filterRe : Regexp)
    (files queue : List GoString) :
    filterLoop lib outFile filterRe files queue
      = files ++ (queue.filterMap lib.abs).filter (specSurvives lib outFile filterRe) := by
  induction queue generalizing files with
  | nil => simp [filterLoop]
  | cons location queue ih =>
    unfold filterLoop
    cases habs : lib.abs location with
    | none => simp only [List.filterMap_cons, habs]; exact ih files
    | some absPath =>
      simp only [List.filterMap_cons, habs, List.filter_cons]
      by_cases h1 : outFile ≠ [] ∧ absPath = outFile
      · rw [if_pos h1, ih]
        have : specSurvives lib outFile filterRe absPath = false := by
          simp [specSurvives, h1.1, h1.2]
        simp [this]
      · rw [if_neg h1]
        by_cases h2 : lib.base absPath = ascii ".gitignore" ∨ lib.base absPath = ascii ".ignore"
        · rw [if_pos h2, ih]
          have : specSurvives lib outFile filterRe absPath = false := by
            rcases h2 with h2 | h2 <;> simp [specSurvives, h2]
          simp [this]
        · rw [if_neg h2]
          have h1' : (decide (outFile ≠ []) && decide (absPath = outFile)) = false := by
            simpa using h1
          have h2' : (decide (lib.base absPath = ascii ".gitignore")
              || decide (lib.base absPath = ascii ".ignore")) = false := by
            simpa using h2
          cases filterRe with
          | none =>
            simp only [ih]
            have : specSurvives lib outFile none absPath = true := by
              simp only [specSurvives, h1', h2']; rfl
            simp [this]
          | some re =>
            simp only
            by_cases h3 : re absPath = true
            · have : specSurvives lib outFile (some re) absPath = true := by
                simp only [specSurvives, h1', h2', h3]; rfl
              simp [h3, ih, this]
            · have h3' : re absPath = false := by simpa using h3
              have : specSurvives lib outFile (some re) absPath = false := by
                simp only [specSurvives, h1', h2', h3']; rfl
              simp [h3', ih, this]

theorem candidateFiles_perm (lib : PathLib) (outFile : GoString) (filterRe : Regexp)
    (queue : List GoString) :
    (candidateFiles lib outFile filterRe queue).Perm
      ((queue.filterMap lib.abs).filter (specSurvives lib outFile filterRe)) := by
  unfold candidateFiles
  rw [filterLoop_eq, List.nil_append]
  exact sortStrings_perm _

theorem mem_candidateFiles (lib : PathLib) (outFile : GoString) (filterRe : Regexp)
    (queue : List GoString) (p : GoString) :
    p ∈ candidateFiles lib outFile filterRe queue ↔
      p ∈ queue.filterMap lib.abs ∧ specSurvives lib outFile filterRe p = true := by
  rw [(candidateFiles_perm lib outFile filterRe queue).mem_iff, List.mem_filter]

theorem matchDotGoAtEnd_iff (s : GoString) :
    matchDotGoAtEnd s = true ↔ ascii ".go" <:+ s := by
  unfold matchDotGoAtEnd
  rw [List.isPrefixOf_iff_prefix, List.reverse_prefix]

/-- C4: for every queue of discovered locations and every permutation of it (same output
target, same include expression) the candidate filter returns the identical list, and that
list is sorted ascending in the lexicographic order of the bytes of the absolute paths. -/
theorem candidateFiles_order_independent (lib : PathLib) (outFile : GoString)
    (filterRe : Regexp) (queue1 queue2 : List GoString) (h : queue1.Perm queue2) :
    candidateFiles lib outFile filterRe queue1 = candidateFiles lib outFile filterRe queue2 ∧
    List.Sorted (fun a b => a = b ∨ List.Lex (fun x y : UInt8 => x.toNat < y.toNat) a b)
      (candidateFiles lib outFile filterRe queue1) := by
  constructor
  · have hp : (candidateFiles lib outFile filterRe queue1).Perm
        (candidateFiles lib outFile filterRe queue2) :=
      (candidateFiles_perm lib outFile filterRe queue1).trans
        (((h.filterMap lib.abs).filter _).trans
          (candidateFiles_perm lib outFile filterRe queue2).symm)
    exact eq_of_perm_of_sorted_strings _ _ hp (sortStrings_sorted _) (sortStrings_sorted _)
  · have hs := sortStrings_sorted (filterLoop lib outFile filterRe [] queue1)
    refine List.Pairwise.imp ?_ hs
    intro a b hab
    rw [stringLess_false_iff, stringLess_iff_lex] at hab
    exact hab

theorem candidateFiles_order_independent_witness :
    List.Perm [ascii "/w/b.bin", ascii "/w/.gitignore", ascii "/w/a.txt"]
      [ascii "/w/.gitignore", ascii "/w/b.bin", ascii "/w/a.txt"] ∧
    candidateFiles exampleLib [] none [ascii "/w/b.bin", ascii "/w/.gitignore", ascii "/w/a.txt"]
      = candidateFiles exampleLib [] none
          [ascii "/w/.gitignore", ascii "/w/b.bin", ascii "/w/a.txt"] ∧
    candidateFiles exampleLib [] none [ascii "/w/b.bin", ascii "/w/.gitignore", ascii "/w/a.txt"]
      = [ascii "/w/a.txt", ascii "/w/b.bin"] :=
  ⟨List.Perm.swap _ _ _,
   (candidateFiles_order_independent exampleLib [] none _ _ (List.Perm.swap _ _ _)).1,
   by decide⟩

/-- C5: the output of the candidate filter contains, with the same multiplicity as the input,
exactly the absolute paths that are not equal to the (non-empty) output target, whose base
name is neither `.gitignore` nor `.ignore`, and that match the include expression when one
is configured; with the expression `\.go$` every entry ends in `.go`, and without an
expression no entry is dropped for failing to match. -/
theorem candidateFiles_exact (lib : PathLib) (outFile : GoString) (filterRe : Regexp)
    (queue : List GoString) :
    (∀ p : GoString, (candidateFiles lib outFile filterRe queue).count p =
      if ¬ (outFile ≠ [] ∧ p = outFile)
          ∧ lib.base p ≠ ascii ".gitignore" ∧ lib.base p ≠ ascii ".ignore"
          ∧ (∀ re, filterRe = some re → re p = true)
        then (queue.filterMap lib.abs).count p else 0) ∧
    (∀ p ∈ candidateFiles lib outFile (some matchDotGoAtEnd) queue, ascii ".go" <:+ p) ∧
    (∀ p : GoString, (candidateFiles lib outFile none queue).count p =
      if ¬ (outFile ≠ [] ∧ p = outFile)
          ∧ lib.base p ≠ ascii ".gitignore" ∧ lib.base p ≠ ascii ".ignore"
        then (queue.filterMap lib.abs).count p else 0) := by
  have key : ∀ (re : Regexp) (p : GoString), (candidateFiles lib outFile re queue).count p =
      if specSurvives lib outFile re p = true then (queue.filterMap lib.abs).count p
      else 0 := by
    intro re p
    rw [perm_count_eq _ _ (candidateFiles_perm lib outFile re queue), count_filter_ite]
  refine ⟨?_, ?_, ?_⟩
  · intro p
    rw [key]
    congr 1
    cases filterRe with
    | none => simp only [specSurvives, eq_iff_iff]; simp; tauto
    | some re => simp only [specSurvives, eq_iff_iff]; simp; tauto
  · intro p hp
    rw [mem_candidateFiles] at hp
    have h := hp.2
    simp only [specSurvives, Bool.and_eq_true] at h
    exact (matchDotGoAtEnd_iff p).mp h.2
  · intro p
    rw [key]
    congr 1
    simp only [specSurvives, eq_iff_iff]; simp; tauto

theorem candidateFiles_exact_witness :
    ascii "/w/main.go" ∈ candidateFiles exampleLib [] (some matchDotGoAtEnd)
      [ascii "/w/util.go", ascii "/w/README.md", ascii "/w/main.go"] ∧
    ascii ".go" <:+ ascii "/w/main.go" ∧
    candidateFiles exampleLib [] (some matchDotGoAtEnd)
      [ascii "/w/util.go", ascii "/w/README.md", ascii "/w/main.go"]
      = [ascii "/w/main.go", ascii "/w/util.go"] :=
  ⟨by decide,
   (candidateFiles_exact exampleLib [] (some matchDotGoAtEnd)
      [ascii "/w/util.go", ascii "/w/README.md", ascii "/w/main.go"]).2.1
      (ascii "/w/main.go") (by decide),
   by decide⟩

/-- C6: for every queue and every include expression, absent or present and matching any
paths whatsoever, no path in the output of the candidate filter has the base name
`.gitignore` or `.ignore`. -/
theorem candidateFiles_no_ignore_files (lib : PathLib) (outFile : GoString)
    (filterRe : Regexp) (queue : List GoString) :
    ∀ p ∈ candidateFiles lib outFile filterRe queue,
      lib.base p ≠ ascii ".gitignore" ∧ lib.base p ≠ ascii ".ignore" := by
  intro p hp
  rw [mem_candidateFiles] at hp
  have h := hp.2
  simp only [specSurvives, Bool.and_eq_true, Bool.not_eq_true', Bool.or_eq_false_iff,
    decide_eq_false_iff_not] at h
  exact h.1.2

theorem candidateFiles_no_ignore_files_witness :
    candidateFiles exampleLib [] (some (fun _ => true))
      [ascii "/w/.gitignore", ascii "/w/a.txt", ascii "/w/sub/.ignore"] = [ascii "/w/a.txt"] ∧
    (unixBase (ascii "/w/a.txt") ≠ ascii ".gitignore" ∧
      unixBase (ascii "/w/a.txt") ≠ ascii ".ignore") :=
  ⟨by decide,
   candidateFiles_no_ignore_files exampleLib [] (some (fun _ => true))
     [ascii "/w/.gitignore", ascii "/w/a.txt", ascii "/w/sub/.ignore"] (ascii "/w/a.txt")
     (by decide)⟩

/-! ## The renderer -/

theorem listLoop_eq (lib : PathLib) (pwd : GoString) (files : List GoString) :
    listLoop lib pwd files = (files.map (fun p => println (relSlash lib pwd p))).flatten := by
  induction files with
  | nil => rfl
  | cons p files ih => simp [listLoop, ih]

theorem indexLoop_eq (lib : PathLib) (pwd : GoString) (i : Nat) (files : List GoString) :
    indexLoop lib pwd i files
      = ((List.enumFrom (i + 1) files).map (fun kp =>
          formatInt kp.1 ++ ascii ": " ++ relSlash lib pwd kp.2 ++ ascii "\n")).flatten := by
  induction files generalizing i with
  | nil => rfl
  | cons p files ih => simp [indexLoop, ih, List.enumFrom]

theorem catLoop_eq (lib : PathLib) (pwd : GoString) (fsys fsys2 : FileSys)
    (files : List GoString) :
    catLoop lib pwd fsys fsys2 files
      = (files.map (catSection lib pwd fsys fsys2)).flatten := by
  induction files with
  | nil => rfl
  | cons p files ih => simp [catLoop, ih]

/-- C7: whenever the output-redirection target has been resolved to a path (`outFile` is not
empty), that exact absolute path is not in the output of the candidate filter, for every
queue and every include expression; so every line of list mode, every line of the index and
every section of cat mode is that of a path other than the target, and when distinct paths
have distinct relative forms, the target's line is not among the lines of list mode. -/
theorem candidateFiles_excludes_outFile (lib : PathLib) (pwd : GoString) (fsys fsys2 : FileSys)
    (filterRe : Regexp) (stdoutStat : Option Bool) (readlink : Option GoString)
    (queue : List GoString) (outFile : GoString)
    (hres : resolveOutFile lib stdoutStat readlink = outFile) (hne : outFile ≠ []) :
    outFile ∉ candidateFiles lib (resolveOutFile lib stdoutStat readlink) filterRe queue ∧
    run lib pwd fsys fsys2 true filterRe stdoutStat readlink queue
      = (((candidateFiles lib outFile filterRe queue).filter (fun p => decide (p ≠ outFile))).map
          (fun p => println (relSlash lib pwd p))).flatten ∧
    run lib pwd fsys fsys2 false filterRe stdoutStat readlink queue
      = println (ascii "Files not ignored in this directory:")
        ++ ((List.enumFrom 1
              ((candidateFiles lib outFile filterRe queue).filter
                (fun p => decide (p ≠ outFile)))).map
            (fun kp => formatInt kp.1 ++ ascii ": " ++ relSlash lib pwd kp.2 ++ ascii "\n")).flatten
        ++ (((candidateFiles lib outFile filterRe queue).filter (fun p => decide (p ≠ outFile))).map
            (catSection lib pwd fsys fsys2)).flatten ∧
    ((∀ a b, relSlash lib pwd a = relSlash lib pwd b → a = b) →
      println (relSlash lib pwd outFile) ∉
        (candidateFiles lib outFile filterRe queue).map (fun p => println (relSlash lib pwd p))) := by
  have hnot : outFile ∉ candidateFiles lib outFile filterRe queue := by
    intro hmem
    rw [mem_candidateFiles] at hmem
    have h := hmem.2
    simp [specSurvives, hne] at h
  have hfilter : (candidateFiles lib outFile filterRe queue).filter (fun p => decide (p ≠ outFile))
      = candidateFiles lib outFile filterRe queue := by
    rw [List.filter_eq_self]
    intro p hp
    have : p ≠ outFile := fun h => hnot (h ▸ hp)
    simpa using this
  refine ⟨by rw [hres]; exact hnot, ?_, ?_, ?_⟩
  · rw [hfilter]
    simp only [run, render, hres, if_true]
    exact listLoop_eq _ _ _
  · rw [hfilter]
    simp only [run, render, hres, Bool.false_eq_true, if_false]
    rw [indexLoop_eq, catLoop_eq]
  · intro hinj hmem
    rw [List.mem_map] at hmem
    obtain ⟨p, hp, hpe⟩ := hmem
    have h1 : relSlash lib pwd p = relSlash lib pwd outFile := by
      unfold println at hpe
      exact List.append_cancel_right hpe
    exact hnot (hinj p outFile h1 ▸ hp)

theorem candidateFiles_excludes_outFile_witness :
    resolveOutFile exampleLib (some false) (some (ascii "/w/out.txt")) = ascii "/w/out.txt" ∧
    ascii "/w/out.txt" ∉ candidateFiles exampleLib
      (resolveOutFile exampleLib (some false) (some (ascii "/w/out.txt"))) (some (fun _ => true))
      [ascii "/w/out.txt", ascii "/w/a.txt"] ∧
    candidateFiles exampleLib (ascii "/w/out.txt") (some (fun _ => true))
      [ascii "/w/out.txt", ascii "/w/a.txt"] = [ascii "/w/a.txt"] :=
  ⟨by decide,
   (candidateFiles_excludes_outFile exampleLib (ascii "/w") (fun _ => .error (IOErr.other 2))
      (fun _ => .error (IOErr.other 2)) (some (fun _ => true)) (some false)
      (some (ascii "/w/out.txt")) [ascii "/w/out.txt", ascii "/w/a.txt"] (ascii "/w/out.txt")
      (by decide) (by decide)).1,
   by decide⟩

/-- The copy loop with enough fuel writes all the bytes of the file, and after them the
marker on a line of its own when the reads end in an error. -/
theorem copyLoop_eq (fuel : Nat) (f : FileStream) (h : f.data.length < fuel) :
    copyLoop fuel f
      = f.data ++ (if f.term = IOErr.eof then [] else ascii "\n" ++ println marker) := by
  induction fuel generalizing f with
  | zero => omega
  | succ fuel ih =>
    obtain ⟨chunks, term⟩ := f
    simp only [copyLoop, FileStream.read]
    cases hrc : readChunks 4096 chunks with
    | none =>
      have hd : chunks.flatten = [] := (readChunks_none_iff _ _).mp hrc
      simp only [FileStream.data, hd]
      by_cases ht : term = IOErr.eof
      · simp [ht]
      · simp [ht]
    | some br =>
      obtain ⟨buf, rest⟩ := br
      obtain ⟨hne, _, hcat⟩ := readChunks_some 4096 (by decide) chunks buf rest hrc
      have hpos : 0 < buf.length := List.length_pos.mpr hne
      have hlen : (FileStream.data ⟨rest, term⟩).length < fuel := by
        have := congrArg List.length hcat
        simp only [FileStream.data, List.length_append] at this h ⊢
        omega
      have := ih ⟨rest, term⟩ hlen
      simp only [reduceCtorEq, if_false, ne_eq, not_true_eq_false] at this ⊢
      rw [this]
      simp only [FileStream.data, ← hcat, List.append_assoc]

theorem isTextFile_snd_none_of_true (fsys : FileSys) (path : GoString) (err : Option IOErr)
    (h : isTextFile fsys path = (true, err)) : err = none := by
  unfold isTextFile at h
  split at h
  · simp at h
  · split at h
    split_ifs at h
    · simp at h
    · simp only [Prod.mk.injEq] at h
      exact h.2.symm

theorem catSection_of_not_text (lib : PathLib) (pwd : GoString) (fsys fsys2 : FileSys)
    (absPath : GoString) (h : isTextFile fsys absPath ≠ (true, none)) :
    catSection lib pwd fsys fsys2 absPath = banner lib pwd absPath ++ println marker := by
  unfold catSection
  rcases hres : isTextFile fsys absPath with ⟨isText, err⟩
  rw [hres] at h
  simp only
  cases isText with
  | false => simp
  | true =>
    have := isTextFile_snd_none_of_true fsys absPath err hres
    subst this
    exact absurd rfl h

theorem catSection_of_text (lib : PathLib) (pwd : GoString) (fsys fsys2 : FileSys)
    (absPath : GoString) (h : isTextFile fsys absPath = (true, none)) :
    catSection lib pwd fsys fsys2 absPath = banner lib pwd absPath ++
      (match fsys2 absPath with
       | .error _ => println marker
       | .ok f => f.data ++ (if f.term = IOErr.eof then [] else ascii "\n" ++ println marker)) := by
  unfold catSection
  rw [h]
  simp only [ne_eq, not_true_eq_false, Bool.not_true, Bool.false_eq_true, or_self, if_false]
  cases fsys2 absPath with
  | error e => rfl
  | ok f => simp only [copyLoop_eq _ f (Nat.lt_succ_self _)]

/-- C8: in cat mode each path of the list gets exactly one section, in list order: the banner
`==== ./relative/path ====` (after two newlines) followed by the line `BINARY OR BAD FORMAT`
when `isTextFile` returns Binary or an error or the file cannot be opened again, by the exact
bytes of the file when it is Text and reads to its end, and by the bytes read so far and then
`BINARY OR BAD FORMAT` on a line of its own when a read fails; the section of a path depends
only on what opening that path gives, so a failure on one file changes no other section. -/
theorem catLoop_sections (lib : PathLib) (pwd : GoString) (fsys fsys2 : FileSys)
    (files : List GoString) :
    catLoop lib pwd fsys fsys2 files = (files.map (catSection lib pwd fsys fsys2)).flatten ∧
    (∀ absPath rel, lib.rel pwd absPath = some rel →
      banner lib pwd absPath = ascii "\n\n==== ./" ++ lib.toSlash rel ++ ascii " ====\n") ∧
    (∀ absPath, isTextFile fsys absPath ≠ (true, none) →
      catSection lib pwd fsys fsys2 absPath
        = banner lib pwd absPath ++ ascii "BINARY OR BAD FORMAT\n") ∧
    (∀ absPath err, isTextFile fsys absPath = (true, none) → fsys2 absPath = .error err →
      catSection lib pwd fsys fsys2 absPath
        = banner lib pwd absPath ++ ascii "BINARY OR BAD FORMAT\n") ∧
    (∀ absPath f, isTextFile fsys absPath = (true, none) → fsys2 absPath = .ok f →
      f.term = IOErr.eof →
      catSection lib pwd fsys fsys2 absPath = banner lib pwd absPath ++ f.data) ∧
    (∀ absPath f, isTextFile fsys absPath = (true, none) → fsys2 absPath = .ok f →
      f.term ≠ IOErr.eof →
      catSection lib pwd fsys fsys2 absPath
        = banner lib pwd absPath ++ f.data ++ ascii "\nBINARY OR BAD FORMAT\n") ∧
    (∀ (fsys3 fsys4 : FileSys) absPath, fsys3 absPath = fsys absPath →
      fsys4 absPath = fsys2 absPath →
      catSection lib pwd fsys3 fsys4 absPath = catSection lib pwd fsys fsys2 absPath) := by
  refine ⟨catLoop_eq lib pwd fsys fsys2 files, ?_, ?_, ?_, ?_, ?_, ?_⟩
  · intro absPath rel hrel
    simp only [banner, catRelPath, hrel]
    have : ascii "\n\n==== ./" = ascii "\n\n==== " ++ ascii "./" := by decide
    rw [this]
    simp only [List.append_assoc]
  · intro absPath h
    rw [catSection_of_not_text lib pwd fsys fsys2 absPath h]
    rfl
  · intro absPath err h h2
    rw [catSection_of_text lib pwd fsys fsys2 absPath h, h2]
    rfl
  · intro absPath f h h2 hterm
    rw [catSection_of_text lib pwd fsys fsys2 absPath h, h2]
    simp [hterm]
  · intro absPath f h h2 hterm
    rw [catSection_of_text lib pwd fsys fsys2 absPath h, h2]
    simp only [hterm, if_false, List.append_assoc]
    rfl
  · intro fsys3 fsys4 absPath h3 h4
    unfold catSection isTextFile
    rw [h3, h4]

theorem exampleFS_a_text : isTextFile exampleFS (ascii "/w/a.txt") = (true, none) :=
  (isTextFile_eq exampleFS (ascii "/w/a.txt") ⟨[ascii "hello"], IOErr.eof⟩ rfl (Or.inr rfl)).trans
    (by decide)

theorem exampleFS_b_binary : isTextFile exampleFS (ascii "/w/b.bin") = (false, none) :=
  (isTextFile_eq exampleFS (ascii "/w/b.bin") ⟨[[0x00, 0x01, 0x02, 0xFF]], IOErr.eof⟩ rfl
    (Or.inr rfl)).trans (by decide)

theorem catLoop_sections_witness :
    isTextFile exampleFS (ascii "/w/a.txt") = (true, none) ∧
    isTextFile exampleFS (ascii "/w/b.bin") ≠ (true, none) ∧
    catLoop exampleLib (ascii "/w") exampleFS exampleFS [ascii "/w/a.txt", ascii "/w/b.bin"]
      = ascii "\n\n==== ./a.txt ====\nhello\n\n==== ./b.bin ====\nBINARY OR BAD FORMAT\n" := by
  have hb : isTextFile exampleFS (ascii "/w/b.bin") ≠ (true, none) := by
    rw [exampleFS_b_binary]; decide
  refine ⟨exampleFS_a_text, hb, ?_⟩
  obtain ⟨h1, h2, h3, _, h5, _, _⟩ := catLoop_sections exampleLib (ascii "/w") exampleFS
    exampleFS [ascii "/w/a.txt", ascii "/w/b.bin"]
  rw [h1]
  simp only [List.map, List.flatten]
  rw [h5 (ascii "/w/a.txt") ⟨[ascii "hello"], IOErr.eof⟩ exampleFS_a_text rfl rfl,
    h3 (ascii "/w/b.bin") hb,
    h2 (ascii "/w/a.txt") (ascii "a.txt") (by decide),
    h2 (ascii "/w/b.bin") (ascii "b.bin") (by decide)]
  decide

/-! ## The verb `%d` -/

theorem decimalValue_append_singleton (ds : Bytes) (d : UInt8) :
    decimalValue (ds ++ [d]) = 10 * decimalValue ds + (d.toNat - 48) := by
  simp [decimalValue, List.foldl_append]

theorem toNat_digit (u : Nat) (h : u < 10) : (UInt8.ofNat (48 + u)).toNat = 48 + u := by
  interval_cases u <;> rfl

/-- The digit loop writes, in front of `buf`, the decimal digits of `u`: at least one digit,
each from `0` to `9`, denoting `u`, the first one `0` only for `u = 0`. -/
theorem fmtDigits_spec (fuel u : Nat) (buf : Bytes) (h : u ≤ fuel) :
    ∃ ds : Bytes, fmtDigits fuel u buf = ds ++ buf ∧ ds ≠ [] ∧
      (∀ d ∈ ds, 48 ≤ d.toNat ∧ d.toNat ≤ 57) ∧ decimalValue ds = u ∧
      (ds.head? = some 48 → u = 0) := by
  induction fuel generalizing u buf with
  | zero =>
    have hu : u = 0 := by omega
    subst hu
    exact ⟨[48], rfl, by simp, by decide, by decide, fun _ => rfl⟩
  | succ fuel ih =>
    unfold fmtDigits
    by_cases h10 : 10 ≤ u
    · rw [if_pos h10]
      obtain ⟨ds, heq, hne, hdig, hval, hhead⟩ :=
        ih (u / 10) (UInt8.ofNat (48 + (u - u / 10 * 10)) :: buf) (by omega)
      have hlt : u - u / 10 * 10 < 10 := by omega
      have hd := toNat_digit (u - u / 10 * 10) hlt
      refine ⟨ds ++ [UInt8.ofNat (48 + (u - u / 10 * 10))], ?_, by simp, ?_, ?_, ?_⟩
      · rw [heq]; simp
      · intro d hmem
        rw [List.mem_append] at hmem
        rcases hmem with hmem | hmem
        · exact hdig d hmem
        · rw [List.mem_singleton] at hmem
          subst hmem
          rw [hd]; omega
      · rw [decimalValue_append_singleton, hval, hd]; omega
      · intro hh
        have : ds.head? = some 48 := by
          cases ds with
          | nil => exact absurd rfl hne
          | cons x xs => simpa using hh
        have := hhead this
        omega
    · rw [if_neg h10]
      have hlt : u < 10 := by omega
      have hd := toNat_digit u hlt
      refine ⟨[UInt8.ofNat (48 + u)], rfl, by simp, ?_, ?_, ?_⟩
      · intro d hmem
        rw [List.mem_singleton] at hmem
        subst hmem
        rw [hd]; omega
      · simp [decimalValue, hd]
      · intro hh
        simp only [List.head?_cons, Option.some.injEq] at hh
        have := congrArg UInt8.toNat hh
        rw [hd] at this
        have h48 : (48 : UInt8).toNat = 48 := rfl
        omega

theorem formatInt_spec (k : Nat) :
    formatInt k ≠ [] ∧ (∀ d ∈ formatInt k, 48 ≤ d.toNat ∧ d.toNat ≤ 57) ∧
      decimalValue (formatInt k) = k ∧ ((formatInt k).head? = some 48 → k = 0) := by
  obtain ⟨ds, heq, hne, hdig, hval, hhead⟩ := fmtDigits_spec k k [] (le_refl k)
  rw [List.append_nil] at heq
  unfold formatInt
  rw [heq]
  exact ⟨hne, hdig, hval, hhead⟩

/-- C9: for every path list, the output of list mode is exactly one line per path, in list
order, each being `./` followed by the path relative to the working directory with the
separators turned into forward slashes; and the output of cat mode starts with the line
`Files not ignored in this directory:` followed by those same lines in the same order, the
k-th one after the decimal digits of k (k counting from 1, digits `0` to `9`, no leading
zero), a colon and a space, and then the sections of the cat loop. -/
theorem render_list_and_index (lib : PathLib) (pwd : GoString) (fsys fsys2 : FileSys)
    (files : List GoString) :
    render lib pwd fsys fsys2 true files
      = (files.map (fun p => relSlash lib pwd p ++ ascii "\n")).flatten ∧
    render lib pwd fsys fsys2 false files
      = ascii "Files not ignored in this directory:\n"
        ++ ((List.enumFrom 1 files).map (fun kp =>
              formatInt kp.1 ++ ascii ": " ++ (relSlash lib pwd kp.2 ++ ascii "\n"))).flatten
        ++ catLoop lib pwd fsys fsys2 files ∧
    (∀ p rel, lib.rel pwd p = some rel → relSlash lib pwd p = ascii "./" ++ lib.toSlash rel) ∧
    (∀ k : Nat, formatInt k ≠ [] ∧ (∀ d ∈ formatInt k, 48 ≤ d.toNat ∧ d.toNat ≤ 57) ∧
      (formatInt k).foldl (fun acc d => 10 * acc + (d.toNat - 48)) 0 = k ∧
      ((formatInt k).head? = some 48 → k = 0)) ∧
    formatInt 1 = [0x31] ∧ formatInt 2 = [0x32] ∧ formatInt 10 = [0x31, 0x30] ∧
    formatInt 120 = [0x31, 0x32, 0x30] := by
  refine ⟨?_, ?_, ?_, formatInt_spec, by decide, by decide, by decide, by decide⟩
  · simp only [render, if_true]
    exact listLoop_eq lib pwd files
  · simp only [render, Bool.false_eq_true, if_false]
    rw [indexLoop_eq]
    have e1 : println (ascii "Files not ignored in this directory:")
        = ascii "Files not ignored in this directory:\n" := by decide
    rw [e1]
    simp only [List.append_assoc]
  · intro p rel hrel
    simp only [relSlash, hrel]

theorem render_list_and_index_witness :
    exampleLib.rel (ascii "/w") (ascii "/w/sub/a.txt") = some (ascii "sub/a.txt") ∧
    relSlash exampleLib (ascii "/w") (ascii "/w/sub/a.txt") = ascii "./sub/a.txt" ∧
    render exampleLib (ascii "/w") exampleFS exampleFS true [ascii "/w/a.txt", ascii "/w/b.bin"]
      = ascii "./a.txt\n./b.bin\n" ∧
    render exampleLib (ascii "/w") exampleFS exampleFS false [ascii "/w/a.txt", ascii "/w/b.bin"]
      = ascii "Files not ignored in this directory:\n1: ./a.txt\n2: ./b.bin\n"
        ++ catLoop exampleLib (ascii "/w") exampleFS exampleFS
            [ascii "/w/a.txt", ascii "/w/b.bin"] ∧
    (0x31 : UInt8) ∈ formatInt 12 ∧
    (48 ≤ (0x31 : UInt8).toNat ∧ (0x31 : UInt8).toNat ≤ 57) :=
  ⟨by decide,
   ((render_list_and_index exampleLib (ascii "/w") exampleFS exampleFS
      [ascii "/w/a.txt", ascii "/w/b.bin"]).2.2.1 (ascii "/w/sub/a.txt") (ascii "sub/a.txt")
      (by decide)).trans (by decide),
   (render_list_and_index exampleLib (ascii "/w") exampleFS exampleFS
      [ascii "/w/a.txt", ascii "/w/b.bin"]).1.trans (by decide),
   (render_list_and_index exampleLib (ascii "/w") exampleFS exampleFS
      [ascii "/w/a.txt", ascii "/w/b.bin"]).2.1.trans
      (congrArg (fun x => x ++ catLoop exampleLib (ascii "/w") exampleFS exampleFS
        [ascii "/w/a.txt", ascii "/w/b.bin"]) (by decide)),
   by decide,
   ((render_list_and_index exampleLib (ascii "/w") exampleFS exampleFS
      [ascii "/w/a.txt", ascii "/w/b.bin"]).2.2.2.1 12).2.1 0x31 (by decide)⟩

/-- The cat-mode scenario of the specification on the same directory: the index, then the
section of `a.txt` with `hello` and the section of `b.bin` with the marker. -/
theorem run_cat_mode_example :
    run exampleLib (ascii "/w") exampleFS exampleFS false none (some true) none
      [ascii "/w/b.bin", ascii "/w/.gitignore", ascii "/w/a.txt"]
    = ascii ("Files not ignored in this directory:\n1: ./a.txt\n2: ./b.bin\n"
        ++ "\n\n==== ./a.txt ====\nhello\n\n==== ./b.bin ====\nBINARY OR BAD FORMAT\n") := by
  have hfiles : candidateFiles exampleLib (resolveOutFile exampleLib (some true) none) none
      [ascii "/w/b.bin", ascii "/w/.gitignore", ascii "/w/a.txt"]
      = [ascii "/w/a.txt", ascii "/w/b.bin"] := by decide
  have hb : isTextFile exampleFS (ascii "/w/b.bin") ≠ (true, none) := by
    rw [exampleFS_b_binary]; decide
  simp only [run, hfiles, render, Bool.false_eq_true, if_false]
  rw [catLoop_eq]
  simp only [List.map, List.flatten]
  rw [catSection_of_text _ _ _ _ _ exampleFS_a_text, catSection_of_not_text _ _ _ _ _ hb]
  decide

end Catall
